import Mathlib

/-
Verification of the hooto/hmetrics repository.

The repository has two Go source files:
 * `prometheus.go` — the Prometheus text-format encoder
   (`translateMetricsToPrometheusTextFormat`, `translateMetrics`,
   `writeEntry`, `writeLabels`, `escaper`);
 * the metric-map file — `NewBuckets`, `RegisterComplexMap`,
   `complexMap.Add`, and the label-keyed metric maps.

Modelling conventions used throughout:
 * Go `float64` values are modelled as `F`: a finite rational (`F.fin q`)
   or `+Inf` (`F.inf`).  `strconv.FormatFloat(v, 'f', -1, 64)` is modelled
   by decimal formatting of the rational (`formatRat`); negative infinity
   and NaN never occur in the translated code paths.
 * Go `uint64` bucket counts are modelled as `Nat`; no claim concerns
   wrap-around at `2^64`, which would in any case be destroyed by the
   source's own conversion to `float64`.
 * Writes to the output `bytes.Buffer` are modelled by string
   concatenation in program order; each `writeEntry` call produces one
   output line (a `String` ending in `"\n"`).
 * Go string comparison (`<` on strings, used by `sort.SliceStable` and
   `sort.Strings`) is byte-wise lexicographic; since UTF-8 preserves
   code-point order this is modelled by `charListLt` on the character
   lists of Lean strings.
 * `sort.SliceStable` is a stable sort with respect to a `less` function;
   it is modelled by `List.insertionSort` with the non-strict relation
   `le a b := ¬ less b a`, which is likewise stable (an element of the
   input is inserted in front of only strictly greater elements of its
   tail's sorted image, so equivalent elements keep their input order).
 * A Go `map[string]string` (metric labels) is modelled as an association
   list with the engine-guaranteed invariant that keys are unique; map
   iteration order never matters in the source because key sets are
   sorted before use.
-/

namespace HMetrics

/-! ## Byte-lexicographic order on strings (Go `<` on `string`) -/

/-- Lexicographic strict order on character lists, comparing scalar values;
the model of Go's `<` on strings. -/
def charListLt : List Char → List Char → Bool
  | _, [] => false
  | [], _ :: _ => true
  | a :: as, b :: bs =>
    if a.toNat < b.toNat then true
    else if b.toNat < a.toNat then false
    else charListLt as bs

/-- Go `a < b` on strings. -/
def strLtB (a b : String) : Bool := charListLt a.data b.data

/-- Non-strict string order `a ≤ b`, i.e. `¬ (b < a)`; the ordering used by
`sort.Strings` (model: sorting with respect to this relation). -/
def strLe (a b : String) : Prop := charListLt b.data a.data = false

instance : DecidableRel strLe := fun _ _ => inferInstanceAs (Decidable (_ = false))

/-! ## float64 values and their text formatting -/

/-- A `float64` as it occurs in the translated code paths: a finite
rational or `+Inf`. -/
inductive F where
  | fin : ℚ → F
  | inf : F
deriving DecidableEq

/-- Model of `math.IsInf(bound, +1)`. -/
def isInf : F → Bool
  | .inf => true
  | .fin _ => false

/-- Decimal digits of the fractional part `r/d` (0 ≤ r < d), with fuel;
terminates exactly for denominators of the form `2^a * 5^b`, the only ones
a `float64` can produce. -/
def fracDigits : Nat → Nat → Nat → String
  | 0, _, _ => ""
  | fuel + 1, r, d =>
    if r = 0 then "" else Nat.repr (r * 10 / d) ++ fracDigits fuel (r * 10 % d) d

/-- Decimal notation of a rational; the model of
`strconv.FormatFloat(v, 'f', -1, 64)` for finite `v`. -/
def formatRat (q : ℚ) : String :=
  (if q.num < 0 then "-" else "")
    ++ Nat.repr (q.num.natAbs / q.den)
    ++ (if fracDigits 64 (q.num.natAbs % q.den) q.den = "" then ""
        else "." ++ fracDigits 64 (q.num.natAbs % q.den) q.den)

/-- `strconv.FormatFloat(v, 'f', -1, 64)`; Go renders `math.Inf(+1)` as
`"+Inf"`. -/
def formatFloat : F → String
  | .inf => "+Inf"
  | .fin q => formatRat q

/-! ## Label-value escaping (`escaper` in prometheus.go) -/

/-- Replacement for one character under
`strings.NewReplacer("\\", "\\\\", "\n", "\\n", "\"", "\\\"")`. -/
def escapeChar (c : Char) : List Char :=
  if c = '\\' then ['\\', '\\']
  else if c = '\n' then ['\\', 'n']
  else if c = '"' then ['\\', '"']
  else [c]

/-- `escaper.WriteString`: every character of the input is copied, with
backslash, line feed and double quote replaced by their escape sequences. -/
def escaper (s : String) : String := String.mk (s.data.map escapeChar).flatten

/-! ## The data model (`metrics.MetricSnapshot` and `protos.MetricType`) -/

/-- `protos.MetricType`; `invalid` stands for every enum value other than
`COUNTER`, `GAUGE`, `HISTOGRAM` (the `switch` in `translateMetrics` has no
case for them). -/
inductive MetricType where
  | invalid
  | counter
  | gauge
  | histogram
deriving DecidableEq

/-- `metrics.MetricSnapshot`: identity, type, scalar value, labels and —
for histograms — bucket bounds (length n) and counts (length n+1, the last
entry being the overflow bucket). -/
structure MetricSnapshot where
  id : Nat
  name : String
  type : MetricType
  help : String
  value : F
  labels : List (String × String)
  bounds : List F
  counts : List Nat
deriving DecidableEq

/-- Go map lookup `labels[l]` (missing keys never occur: only sorted keys
of the same map are looked up). -/
def getLabel (labels : List (String × String)) (l : String) : String :=
  match labels with
  | [] => ""
  | (k, v) :: rest => if k = l then v else getLabel rest l

/-! ## String assembly helpers -/

/-- Concatenation of a list of output fragments in order. -/
def strJoin : List String → String
  | [] => ""
  | s :: ss => s ++ strJoin ss

/-- `p₀ ++ sep ++ p₁ ++ sep ++ …`: fragments joined with a separator
before every fragment but the first. -/
def sepJoin (sep : String) : List String → String
  | [] => ""
  | p :: ps => p ++ strJoin (ps.map fun q => sep ++ q)

/-! ## The encoder (`prometheus.go`) -/

/-- `sortedLabels := maps.Keys(labels); sort.Strings(sortedLabels)`. -/
def sortLabelKeys (labels : List (String × String)) : List String :=
  List.insertionSort strLe (labels.map Prod.fst)

/-- The fragment `l + "=\"" + escaped value + "\""` written for one label
key (everything the loop body writes after the separator). -/
def labelFrag (labels : List (String × String)) (l : String) : String :=
  l ++ "=\"" ++ escaper (getLabel labels l) ++ "\""

/-- `writeLabels`: emits `{name1="v1",name2="v2"}` over the sorted label
keys, appends the synthetic label (`le` for bucket lines) after them, and
emits nothing at all when there is neither a label nor a synthetic label.
The running `separator` state of the Go loop is the second component of
the fold state (initially the opening brace, a comma afterwards). -/
def writeLabels (labels : List (String × String)) (extraLabelName : String)
    (extraLabelItem : F) : String :=
  if labels.length = 0 ∧ extraLabelName = "" then ""
  else
    let p := (sortLabelKeys labels).foldl
      (fun (acc : String × String) l => (acc.1 ++ acc.2 ++ labelFrag labels l, ","))
      ("", "\x7b")
    (if 0 < extraLabelName.length then
        p.1 ++ p.2 ++ (extraLabelName ++ "=\"" ++ formatFloat extraLabelItem ++ "\"")
      else p.1) ++ "\x7d"

/-- `writeEntry`: one sample line `name[suffix][labels] value\n`. -/
def writeEntry (metricName : String) (value : F) (suffix : String)
    (labels : List (String × String)) (extraLabelName : String)
    (extraLabelItem : F) : String :=
  metricName ++ (if 0 < suffix.length then suffix else "")
    ++ writeLabels labels extraLabelName extraLabelItem
    ++ " " ++ formatFloat value ++ "\n"

/-- The `for idx, bound := range metric.Bounds` loop of `translateMetrics`:
returns the emitted `_bucket` lines, the running cumulative `count` after
the loop, and the `hasInf` flag.  `counts.headD 0` is `metric.Counts[idx]`
(the index never runs off the end under the engine invariant
`len(counts) = len(bounds) + 1`). -/
def histLoop (name : String) (labels : List (String × String)) :
    List F → List Nat → Nat → List String × Nat × Bool
  | [], _, count => ([], count, false)
  | bound :: bs, counts, count0 =>
    let count := count0 + counts.headD 0
    let r := histLoop name labels bs counts.tail count
    (writeEntry name (F.fin count) "_bucket" labels "le" bound :: r.1, r.2.1, isInf bound || r.2.2)

/-- All lines emitted for one histogram snapshot: the per-bound bucket
lines, the synthetic `+Inf` bucket when no bound was `+Inf`, then the
`_sum` and `_count` lines.  `m.counts.getD m.bounds.length 0` is
`metric.Counts[len(metric.Bounds)]`, the overflow entry. -/
def histogramLines (m : MetricSnapshot) (labels : List (String × String)) : List String :=
  let r := histLoop m.name labels m.bounds m.counts 0
  let count := r.2.1 + m.counts.getD m.bounds.length 0
  r.1
    ++ (if r.2.2 = false then [writeEntry m.name (F.fin count) "_bucket" labels "le" F.inf] else [])
    ++ [writeEntry m.name m.value "_sum" labels "" (F.fin 0),
        writeEntry m.name (F.fin count) "_count" labels "" (F.fin 0)]

/-- The text written for one histogram snapshot. -/
def histogramEntries (m : MetricSnapshot) (labels : List (String × String)) : String :=
  strJoin (histogramLines m labels)

/-- The text written for one snapshot of the group body (`maps.Clone` of
the labels is the identity in the model). -/
def entryFor (isHistogram : Bool) (m : MetricSnapshot) : String :=
  if isHistogram then histogramEntries m m.labels
  else writeEntry m.name m.value "" m.labels "" (F.fin 0)

/-- The `for idx, metric := range metrics` body loop of `translateMetrics`:
after every entry except the last one, a separator byte `'\n'` is written
when the group is a histogram group (`idx != len(metrics)-1`). -/
def seriesBody (isHistogram : Bool) : List MetricSnapshot → String
  | [] => ""
  | [m] => entryFor isHistogram m
  | m :: m2 :: ms =>
    entryFor isHistogram m ++ (if isHistogram then "\n" else "")
      ++ seriesBody isHistogram (m2 :: ms)

/-- What the `switch metric.Type` writes after `"# TYPE " + metric.Name`:
nothing at all for a type without a case. -/
def typeTail : MetricType → String
  | .counter => " counter\n"
  | .gauge => " gauge\n"
  | .histogram => " histogram\n"
  | .invalid => ""

/-- The header of a name group: the optional `# HELP` line (only when the
help text is non-empty) followed by the `# TYPE` text. -/
def groupHeader (m : MetricSnapshot) : String :=
  (if 0 < m.help.length then "# HELP " ++ m.name ++ " " ++ m.help ++ "\n" else "")
    ++ "# TYPE " ++ m.name ++ typeTail m.type

/-- `translateMetrics`: header from the group's first snapshot, the body
loop, and the final `w.WriteByte('\n')`.  The Go function indexes
`metrics[0]` and is only ever called on non-empty groups. -/
def translateMetrics (group : List MetricSnapshot) : String :=
  match group with
  | [] => ""
  | m :: _ =>
    groupHeader m ++ seriesBody (decide (m.type = MetricType.histogram)) group ++ "\n"

/-- The `less` closure of `sort.SliceStable` negated into a `≤`:
`¬ less b a`, i.e. name strictly below, or equal names and `id ≤ id`. -/
def snapLeB (a b : MetricSnapshot) : Bool :=
  if a.name = b.name then decide (a.id ≤ b.id) else strLtB a.name b.name

/-- The sorting relation of `translateMetricsToPrometheusTextFormat`. -/
def snapLe (a b : MetricSnapshot) : Prop := snapLeB a b = true

instance : DecidableRel snapLe := fun _ _ => inferInstanceAs (Decidable (_ = true))

/-- `sort.SliceStable(ms, less)`: the stable (name, id) sort. -/
def sortSnapshots (ms : List MetricSnapshot) : List MetricSnapshot :=
  List.insertionSort snapLe ms

/-- `sortedUserMetrics`: the distinct metric names, sorted. -/
def sortedUserMetrics (sorted : List MetricSnapshot) : List String :=
  List.insertionSort strLe ((sorted.map fun m => m.name).dedup)

/-- The output text as a function of the already-sorted snapshot list:
one `translateMetrics` group per distinct name, in sorted name order
(`userMetrics[m.Name] = append(...)` over the sorted list makes the group
of a name exactly the sorted list filtered to that name). -/
def renderSorted (sorted : List MetricSnapshot) : String :=
  strJoin ((sortedUserMetrics sorted).map fun n =>
    translateMetrics (sorted.filter fun m => decide (m.name = n)))

/-- `translateMetricsToPrometheusTextFormat` with its in-place sort made
explicit: the pair of the text written to the buffer and the final
contents of the caller's slice (which `sort.SliceStable` reorders). -/
def translateFull (ms : List MetricSnapshot) : String × List MetricSnapshot :=
  (renderSorted (sortSnapshots ms), sortSnapshots ms)

/-- The text written by `translateMetricsToPrometheusTextFormat`. -/
def translateMetricsToPrometheusTextFormat (ms : List MetricSnapshot) : String :=
  (translateFull ms).1

/-! ## The label-keyed metric maps and the complex-map registry -/

/-- The composite series key (`type Label struct { Name, Item string }`). -/
structure Label where
  name : String
  item : String
deriving DecidableEq

/-- Modelled from the spec: the externally-owned per-series state behind
the three `metrics.MetricMap[Label]` handles of a `complexMap` — the
engine's `Get(key)` is get-or-create, `Add(delta)` accumulates into the
counter or gauge series, and `Put(observation)` appends an observation to
the histogram series.  Each field maps a `Label` to its series state. -/
structure ComplexState where
  counter : List (Label × ℚ)
  gauge : List (Label × ℚ)
  histogram : List (Label × List ℚ)
deriving DecidableEq

/-- Modelled from the spec: the engine's view of one series (absent keys
read as the series' zero state). -/
def getSeries {β : Type} (m : List (Label × β)) (dflt : β) (l : Label) : β :=
  match m with
  | [] => dflt
  | (k, v) :: rest => if k = l then v else getSeries rest dflt l

/-- Modelled from the spec: `Get(l)` followed by an update — get-or-create
per key, updating the existing entry or creating one from the zero
state. -/
def setSeries {β : Type} (m : List (Label × β)) (dflt : β) (l : Label) (f : β → β) :
    List (Label × β) :=
  match m with
  | [] => [(l, f dflt)]
  | (k, v) :: rest => if k = l then (k, f v) :: rest else (k, v) :: setSeries rest dflt l f

/-- `h.Seconds()` for a `time.Duration` of `d` nanoseconds. -/
def durationSeconds (d : Int) : ℚ := (d : ℚ) / 1000000000

/-- `complexMap.Add(name, item, c, g, h)`: counter `+= c` only when
`c > 0`, gauge `+= g` only when `g != 0`, histogram observation
`h.Seconds()` only when `h >= 0`. -/
def complexMapAdd (st : ComplexState) (name item : String) (c g : ℚ) (h : Int) :
    ComplexState :=
  let l : Label := ⟨name, item⟩
  let st1 :=
    if 0 < c then { st with counter := setSeries st.counter 0 l (fun v => v + c) } else st
  let st2 :=
    if g ≠ 0 then { st1 with gauge := setSeries st1.gauge 0 l (fun v => v + g) } else st1
  if 0 ≤ h then
    { st2 with histogram := setSeries st2.histogram [] l (fun obs => obs ++ [durationSeconds h]) }
  else st2

/-- Modelled from the spec: the handle `metrics.RegisterMap[Label](type,
name, help, buckets)` returns, identified by its registration
arguments. -/
structure MetricMapHandle where
  type : MetricType
  name : String
  help : String
  buckets : List ℚ
deriving DecidableEq

/-- `type complexMap struct { counter, gauge, histogram *metrics.MetricMap[Label] }`. -/
structure ComplexEntry where
  counter : MetricMapHandle
  gauge : MetricMapHandle
  histogram : MetricMapHandle
deriving DecidableEq

/-- Lookup `complexMetrics[name]` in the global registry map (modelled as
an association list with unique keys). -/
def regFind (reg : List (String × ComplexEntry)) (name : String) : Option ComplexEntry :=
  match reg with
  | [] => none
  | (k, v) :: rest => if k = name then some v else regFind rest name

/-- `RegisterComplexMap(name, help, buckets)`: the whole body runs between
`mu.Lock()` and `mu.Unlock()`, so it is modelled as one atomic transition
of the registry state; returns the bundle and the new registry.  On a miss
it registers the three maps under the derived sub-names (buckets only for
the histogram map) and stores the bundle. -/
def RegisterComplexMap (reg : List (String × ComplexEntry)) (name help : String)
    (buckets : List ℚ) : ComplexEntry × List (String × ComplexEntry) :=
  match regFind reg name with
  | some m => (m, reg)
  | none =>
    let m : ComplexEntry :=
      ⟨⟨MetricType.counter, name ++ "_counter", help, []⟩,
       ⟨MetricType.gauge, name ++ "_gauge", help, []⟩,
       ⟨MetricType.histogram, name ++ "_histogram", help, buckets⟩⟩
    (m, reg ++ [(name, m)])

/-! ## Bucket generation (`NewBuckets`) -/

/-- The filling loop of `NewBuckets`: `buckets[i] = start; start *= factor`. -/
def bucketsLoop (start factor : ℚ) : Nat → List ℚ
  | 0 => []
  | n + 1 => start :: bucketsLoop (start * factor) factor n

/-- `NewBuckets(start, factor, count)`: the three `panic` calls are
modelled as `Except.error` with the panic message; otherwise the geometric
bucket list of length `count`. -/
def NewBuckets (start factor : ℚ) (count : Int) : Except String (List ℚ) :=
  if count < 1 then Except.error "NewBuckets needs a positive count"
  else if start ≤ 0 then Except.error "NewBuckets needs a positive start value"
  else if factor ≤ 1 then Except.error "NewBuckets needs a factor greater than 1"
  else Except.ok (bucketsLoop start factor count.toNat)

/-! ## Specification-side definitions used in the claim statements -/

/-- The running cumulative sums `acc+c₁, acc+c₁+c₂, …` over a count list. -/
def cumulative (acc : Nat) : List Nat → List Nat
  | [] => []
  | c :: cs => (acc + c) :: cumulative (acc + c) cs

/-- The bare type keyword of a `# TYPE` line (specification wording). -/
def typeKeyword : MetricType → String
  | .counter => "counter"
  | .gauge => "gauge"
  | .histogram => "histogram"
  | .invalid => ""

/-- A concrete histogram snapshot (bounds `[1, 2]`, counts `[1, 2, 3]`). -/
def c1snap : MetricSnapshot :=
  ⟨0, "h", MetricType.histogram, "", F.fin 4, [], [F.fin 1, F.fin 2], [1, 2, 3]⟩

/-- A concrete counter snapshot with help text. -/
def c8snap : MetricSnapshot :=
  ⟨0, "m", MetricType.counter, "hh", F.fin 1, [], [], []⟩

/-- A concrete snapshot whose type has no case in the encoder's switch. -/
def c10snap : MetricSnapshot :=
  ⟨7, "foo", MetricType.invalid, "", F.fin 9, [], [], []⟩

/-! ## Properties of the string order -/

theorem uint32_toNat_inj {a b : UInt32} (h : a.toNat = b.toNat) : a = b := by
  cases a; cases b
  simp only [UInt32.toNat] at h
  congr
  exact BitVec.eq_of_toNat_eq h

theorem char_toNat_inj {a b : Char} (h : a.toNat = b.toNat) : a = b :=
  Char.ext (uint32_toNat_inj h)

theorem charListLt_irrefl : ∀ l : List Char, charListLt l l = false
  | [] => rfl
  | a :: as => by
    unfold charListLt
    rw [if_neg (Nat.lt_irrefl _), if_neg (Nat.lt_irrefl _)]
    exact charListLt_irrefl as

theorem charListLt_asymm : ∀ l1 l2 : List Char,
    charListLt l1 l2 = true → charListLt l2 l1 = false := by
  intro l1
  induction l1 with
  | nil =>
    intro l2 h
    cases l2 with
    | nil => exact absurd h (by simp [charListLt])
    | cons b bs => simp [charListLt]
  | cons a as ih =>
    intro l2 h
    cases l2 with
    | nil => exact absurd h (by simp [charListLt])
    | cons b bs =>
      unfold charListLt at h ⊢
      rcases Nat.lt_trichotomy a.toNat b.toNat with h1 | h1 | h1
      · rw [if_neg (by omega), if_pos (by omega)]
      · rw [if_neg (by omega), if_neg (by omega)] at h ⊢
        exact ih bs h
      · rw [if_neg (by omega), if_pos h1] at h
        exact absurd h (by decide)

theorem charListLt_trans : ∀ l1 l2 l3 : List Char,
    charListLt l1 l2 = true → charListLt l2 l3 = true → charListLt l1 l3 = true := by
  intro l1
  induction l1 with
  | nil =>
    intro l2 l3 h12 h23
    cases l3 with
    | nil =>
      cases l2 with
      | nil => exact h12
      | cons b bs => exact absurd h23 (by simp [charListLt])
    | cons c cs => simp [charListLt]
  | cons a as ih =>
    intro l2 l3 h12 h23
    cases l2 with
    | nil => exact absurd h12 (by simp [charListLt])
    | cons b bs =>
      cases l3 with
      | nil => exact absurd h23 (by simp [charListLt])
      | cons c cs =>
        unfold charListLt at h12 h23 ⊢
        by_cases hab : a.toNat < b.toNat
        · by_cases hbc : b.toNat < c.toNat
          · rw [if_pos (by omega)]
          · rw [if_neg hbc] at h23
            by_cases hcb : c.toNat < b.toNat
            · rw [if_pos hcb] at h23
              exact absurd h23 (by decide)
            · rw [if_pos (by omega)]
        · rw [if_neg hab] at h12
          by_cases hba : b.toNat < a.toNat
          · rw [if_pos hba] at h12
            exact absurd h12 (by decide)
          · rw [if_neg hba] at h12
            by_cases hbc : b.toNat < c.toNat
            · rw [if_pos (by omega)]
            · rw [if_neg hbc] at h23
              by_cases hcb : c.toNat < b.toNat
              · rw [if_pos hcb] at h23
                exact absurd h23 (by decide)
              · rw [if_neg hcb] at h23
                rw [if_neg (by omega), if_neg (by omega)]
                exact ih bs cs h12 h23

theorem charListLt_connex : ∀ l1 l2 : List Char,
    charListLt l1 l2 = false → charListLt l2 l1 = false → l1 = l2 := by
  intro l1
  induction l1 with
  | nil =>
    intro l2 h12 _
    cases l2 with
    | nil => rfl
    | cons b bs => exact absurd h12 (by simp [charListLt])
  | cons a as ih =>
    intro l2 h12 h21
    cases l2 with
    | nil => exact absurd h21 (by simp [charListLt])
    | cons b bs =>
      unfold charListLt at h12 h21
      by_cases hab : a.toNat < b.toNat
      · rw [if_pos hab] at h12
        exact absurd h12 (by decide)
      · by_cases hba : b.toNat < a.toNat
        · rw [if_pos hba] at h21
          exact absurd h21 (by decide)
        · rw [if_neg hab, if_neg hba] at h12
          rw [if_neg hba, if_neg hab] at h21
          rw [char_toNat_inj (by omega : a.toNat = b.toNat), ih bs h12 h21]

theorem strLtB_ne {a b : String} (h : charListLt a.data b.data = true) : a ≠ b := by
  intro e
  rw [e, charListLt_irrefl] at h
  exact absurd h (by decide)

instance : IsTotal String strLe := ⟨by
  intro a b
  rcases Bool.eq_false_or_eq_true (charListLt b.data a.data) with h | h
  · exact Or.inr (show charListLt a.data b.data = false from charListLt_asymm _ _ h)
  · exact Or.inl (show charListLt b.data a.data = false from h)⟩

instance : IsTrans String strLe := ⟨by
  intro a b c hab hbc
  have hab' : charListLt b.data a.data = false := hab
  have hbc' : charListLt c.data b.data = false := hbc
  show charListLt c.data a.data = false
  rcases Bool.eq_false_or_eq_true (charListLt c.data a.data) with h | h
  · exfalso
    rcases Bool.eq_false_or_eq_true (charListLt b.data c.data) with hbc2 | hbc2
    · rw [charListLt_trans b.data c.data a.data hbc2 h] at hab'
      exact absurd hab' (by decide)
    · rw [charListLt_connex b.data c.data hbc2 hbc'] at hab'
      rw [h] at hab'
      exact absurd hab' (by decide)
  · exact h⟩

/-! ## Properties of the snapshot order -/

theorem snapLe_of_eq_le {a b : MetricSnapshot} (hn : a.name = b.name) (hid : a.id ≤ b.id) :
    snapLe a b := by
  unfold snapLe snapLeB
  rw [if_pos hn]
  exact decide_eq_true hid

theorem snapLe_of_lt {a b : MetricSnapshot} (h : charListLt a.name.data b.name.data = true) :
    snapLe a b := by
  unfold snapLe snapLeB strLtB
  rw [if_neg (strLtB_ne h)]
  exact h

theorem snapLe_cases {a b : MetricSnapshot} (h : snapLe a b) :
    (a.name = b.name ∧ a.id ≤ b.id) ∨
      (a.name ≠ b.name ∧ charListLt a.name.data b.name.data = true) := by
  unfold snapLe snapLeB strLtB at h
  by_cases hn : a.name = b.name
  · rw [if_pos hn] at h
    exact Or.inl ⟨hn, of_decide_eq_true h⟩
  · rw [if_neg hn] at h
    exact Or.inr ⟨hn, h⟩

instance : IsTotal MetricSnapshot snapLe := ⟨by
  intro a b
  by_cases hn : a.name = b.name
  · rcases Nat.le_total a.id b.id with h | h
    · exact Or.inl (snapLe_of_eq_le hn h)
    · exact Or.inr (snapLe_of_eq_le hn.symm h)
  · rcases Bool.eq_false_or_eq_true (charListLt a.name.data b.name.data) with hlt | hlt
    · exact Or.inl (snapLe_of_lt hlt)
    · rcases Bool.eq_false_or_eq_true (charListLt b.name.data a.name.data) with hlt2 | hlt2
      · exact Or.inr (snapLe_of_lt hlt2)
      · exact absurd (String.ext (charListLt_connex _ _ hlt hlt2)) hn⟩

instance : IsTrans MetricSnapshot snapLe := ⟨by
  intro a b c hab hbc
  rcases snapLe_cases hab with ⟨hn1, hid1⟩ | ⟨hn1, hlt1⟩ <;>
    rcases snapLe_cases hbc with ⟨hn2, hid2⟩ | ⟨hn2, hlt2⟩
  · exact snapLe_of_eq_le (hn1.trans hn2) (le_trans hid1 hid2)
  · exact snapLe_of_lt (by rw [hn1]; exact hlt2)
  · exact snapLe_of_lt (by rw [← hn2]; exact hlt1)
  · exact snapLe_of_lt (charListLt_trans _ _ _ hlt1 hlt2)⟩

/-- The sort key of a snapshot. -/
def snapKey (m : MetricSnapshot) : String × Nat := (m.name, m.id)

/-- The snapshot order strengthened with distinctness of keys; antisymmetric,
hence sorting with respect to it has a unique result. -/
def snapLeStrict (a b : MetricSnapshot) : Prop := snapLe a b ∧ snapKey a ≠ snapKey b

instance : IsAntisymm MetricSnapshot snapLeStrict := ⟨by
  intro a b h1 h2
  obtain ⟨hab, hne⟩ := h1
  obtain ⟨hba, -⟩ := h2
  exfalso
  rcases snapLe_cases hab with ⟨hn1, hid1⟩ | ⟨hn1, hlt1⟩ <;>
    rcases snapLe_cases hba with ⟨hn2, hid2⟩ | ⟨hn2, hlt2⟩
  · refine hne ?_
    unfold snapKey
    rw [hn1, Nat.le_antisymm hid1 hid2]
  · exact hn2 hn1.symm
  · exact hn1 hn2.symm
  · rw [charListLt_asymm _ _ hlt1] at hlt2
    exact absurd hlt2 (by decide)⟩

theorem sortSnapshots_sorted (ms : List MetricSnapshot) :
    List.Sorted snapLe (sortSnapshots ms) :=
  List.sorted_insertionSort snapLe ms

theorem sortSnapshots_perm (ms : List MetricSnapshot) : (sortSnapshots ms).Perm ms :=
  List.perm_insertionSort snapLe ms

theorem sortSnapshots_sorted_strict {ms : List MetricSnapshot}
    (hk : (ms.map snapKey).Nodup) : List.Sorted snapLeStrict (sortSnapshots ms) := by
  have hnd : ((sortSnapshots ms).map snapKey).Nodup :=
    (((sortSnapshots_perm ms).map snapKey).nodup_iff).mpr hk
  have hpw : (sortSnapshots ms).Pairwise fun a b => snapKey a ≠ snapKey b :=
    List.pairwise_map.mp hnd
  exact (sortSnapshots_sorted ms).and hpw

/-- Sorting is permutation-invariant as soon as the (name, id) keys are
pairwise distinct. -/
theorem sortSnapshots_eq_of_perm {ms ms' : List MetricSnapshot} (hp : ms.Perm ms')
    (hk : (ms.map snapKey).Nodup) : sortSnapshots ms = sortSnapshots ms' := by
  have hk' : (ms'.map snapKey).Nodup := ((hp.map snapKey).nodup_iff).mp hk
  have hperm : (sortSnapshots ms).Perm (sortSnapshots ms') :=
    ((sortSnapshots_perm ms).trans hp).trans (sortSnapshots_perm ms').symm
  exact List.eq_of_perm_of_sorted hperm (sortSnapshots_sorted_strict hk)
    (sortSnapshots_sorted_strict hk')

/-! ## String assembly lemmas -/

theorem strJoin_append : ∀ l1 l2 : List String, strJoin (l1 ++ l2) = strJoin l1 ++ strJoin l2 := by
  intro l1 l2
  induction l1 with
  | nil => simp [strJoin]
  | cons s ss ih => simp [strJoin, ih, String.append_assoc]

theorem getLast?_cons_ne {α : Type} (a : α) (l : List α) (h : l ≠ []) :
    (a :: l).getLast? = l.getLast? := by
  cases l with
  | nil => exact absurd rfl h
  | cons b bs => exact List.getLast?_cons_cons

/-- The separator fold of `writeLabels` once the separator has become a
comma: it appends `"," ++ fragment` for every remaining key. -/
theorem foldl_sep_eq (labels : List (String × String)) :
    ∀ (xs : List String) (a : String),
      xs.foldl (fun (acc : String × String) l => (acc.1 ++ acc.2 ++ labelFrag labels l, ","))
        (a, ",") =
        (a ++ strJoin (xs.map fun x => "," ++ labelFrag labels x), ",") := by
  intro xs
  induction xs with
  | nil => intro a; simp [strJoin]
  | cons x xs ih =>
    intro a
    rw [List.foldl_cons, ih]
    simp [strJoin, String.append_assoc]

/-- `writeLabels` as a brace-wrapped comma-joined fragment list: the sorted
explicit labels first, then the synthetic label when present. -/
theorem writeLabels_eq (labels : List (String × String)) (extra : String) (item : F)
    (h : ¬ (labels.length = 0 ∧ extra = "")) :
    writeLabels labels extra item =
      "\x7b" ++ sepJoin ","
          ((sortLabelKeys labels).map (labelFrag labels)
            ++ (if 0 < extra.length then [extra ++ "=\"" ++ formatFloat item ++ "\""] else []))
        ++ "\x7d" := by
  unfold writeLabels
  rw [if_neg h]
  cases hk : sortLabelKeys labels with
  | nil =>
    have hl : labels.length = 0 := by
      have hlen := congrArg List.length hk
      simpa [sortLabelKeys] using hlen
    have he : extra ≠ "" := fun e => h ⟨hl, e⟩
    have hep : 0 < extra.length := by
      cases hx : extra.length with
      | zero => exact absurd (String.ext (List.eq_nil_of_length_eq_zero hx)) he
      | succ n => omega
    simp [List.foldl_nil, sepJoin, strJoin, hep, String.append_assoc]
  | cons k ks =>
    rw [List.foldl_cons, foldl_sep_eq]
    by_cases hep : 0 < extra.length
    · simp [hep, sepJoin, strJoin_append, strJoin, String.append_assoc, Function.comp]
      rfl
    · simp [hep, sepJoin, strJoin, String.append_assoc, Function.comp]
      rfl

/-! ## Histogram bucket lemmas -/

theorem histLoop_fst_cons (name : String) (labels : List (String × String))
    (b : F) (bs : List F) (cs : List Nat) (acc : Nat) :
    (histLoop name labels (b :: bs) cs acc).1 =
      writeEntry name (F.fin ((acc + cs.headD 0 : Nat) : ℚ)) "_bucket" labels "le" b ::
        (histLoop name labels bs cs.tail (acc + cs.headD 0)).1 := rfl

/-- The bucket loop in closed form: one line per bound carrying the
cumulative sum, the final cumulative count, and the `hasInf` flag. -/
theorem histLoop_eq (name : String) (labels : List (String × String)) :
    ∀ (bs : List F) (cs : List Nat) (acc : Nat), bs.length ≤ cs.length →
      histLoop name labels bs cs acc =
        (List.zipWith (fun b (c : Nat) => writeEntry name (F.fin (c : ℚ)) "_bucket" labels "le" b)
            bs (cumulative acc cs),
          acc + (cs.take bs.length).sum,
          bs.any isInf) := by
  intro bs
  induction bs with
  | nil =>
    intro cs acc _
    simp [histLoop]
  | cons b bs ih =>
    intro cs acc h
    cases cs with
    | nil => simp at h
    | cons c cs' =>
      have h' : bs.length ≤ cs'.length := by simpa using h
      simp only [histLoop, List.headD_cons, List.tail_cons]
      rw [ih cs' (acc + c) h']
      simp [cumulative, Nat.add_assoc]

/-- The last bucket line carries the total cumulative count and the last
bound. -/
theorem histLoop_getLast (name : String) (labels : List (String × String)) :
    ∀ (bs : List F) (cs : List Nat) (acc : Nat), bs.length ≤ cs.length →
      (histLoop name labels bs cs acc).1.getLast? =
        bs.getLast?.map fun b =>
          writeEntry name (F.fin ((acc + (cs.take bs.length).sum : Nat) : ℚ))
            "_bucket" labels "le" b := by
  intro bs
  induction bs with
  | nil => intro cs acc _; simp [histLoop]
  | cons b bs ih =>
    intro cs acc h
    cases cs with
    | nil => simp at h
    | cons c cs' =>
      have h' : bs.length ≤ cs'.length := by simpa using h
      cases bs with
      | nil => simp [histLoop]
      | cons b2 bs2 =>
        rw [histLoop_fst_cons]
        simp only [List.headD_cons, List.tail_cons]
        rw [getLast?_cons_ne _ _ (by rw [histLoop_fst_cons]; exact List.cons_ne_nil _ _)]
        rw [ih cs' (acc + c) h']
        simp [List.getLast?_cons_cons, Nat.add_assoc, add_assoc]

theorem take_sum_getD : ∀ (cs : List Nat) (k : Nat), cs.length = k + 1 →
    (cs.take k).sum + cs.getD k 0 = cs.sum := by
  intro cs
  induction cs with
  | nil => intro k h; simp at h
  | cons c cs' ih =>
    intro k h
    cases k with
    | zero =>
      have hnil : cs' = [] := List.eq_nil_of_length_eq_zero (by simpa using h)
      subst hnil
      simp
    | succ k' =>
      have h' : cs'.length = k' + 1 := by simpa using h
      have e := ih k' h'
      simp only [List.take_succ_cons, List.getD_cons_succ, List.sum_cons]
      omega

theorem getD_last : ∀ (cs : List Nat) (k : Nat), cs.length = k + 1 →
    cs.getD k 0 = cs.getLast?.getD 0 := by
  intro cs
  induction cs with
  | nil => intro k h; simp at h
  | cons c cs' ih =>
    intro k h
    cases k with
    | zero =>
      have hnil : cs' = [] := List.eq_nil_of_length_eq_zero (by simpa using h)
      subst hnil
      simp
    | succ k' =>
      have h' : cs'.length = k' + 1 := by simpa using h
      have hne : cs' ≠ [] := by
        intro e
        rw [e] at h'
        simp at h'
      rw [List.getD_cons_succ, ih k' h', getLast?_cons_ne _ _ hne]

/-! ## Series body lemmas -/

theorem seriesBody_false_cons (m : MetricSnapshot) (rest : List MetricSnapshot) :
    seriesBody false (m :: rest) = entryFor false m ++ seriesBody false rest := by
  cases rest with
  | nil => simp [seriesBody]
  | cons m2 ms => simp [seriesBody]

theorem seriesBody_true_eq : ∀ group : List MetricSnapshot,
    seriesBody true group = sepJoin "\n" (group.map fun x => histogramEntries x x.labels) := by
  intro group
  induction group with
  | nil => rfl
  | cons m tail ih =>
    cases tail with
    | nil => simp [seriesBody, sepJoin, strJoin, entryFor]
    | cons m2 ms =>
      rw [seriesBody, ih]
      simp [sepJoin, strJoin, entryFor, String.append_assoc]

theorem seriesBody_false_eq : ∀ group : List MetricSnapshot,
    seriesBody false group =
      strJoin (group.map fun x => writeEntry x.name x.value "" x.labels "" (F.fin 0)) := by
  intro group
  induction group with
  | nil => rfl
  | cons m tail ih =>
    rw [seriesBody_false_cons, ih]
    simp [strJoin, entryFor]

/-! ## Series map and registry lemmas -/

theorem getSeries_setSeries {β : Type} :
    ∀ (m : List (Label × β)) (dflt : β) (l : Label) (f : β → β),
      getSeries (setSeries m dflt l f) dflt l = f (getSeries m dflt l) := by
  intro m
  induction m with
  | nil => intro dflt l f; simp [setSeries, getSeries]
  | cons p rest ih =>
    intro dflt l f
    obtain ⟨k, v⟩ := p
    by_cases hk : k = l
    · simp [setSeries, getSeries, hk]
    · simp [setSeries, getSeries, hk, ih]

theorem regFind_append_self :
    ∀ (reg : List (String × ComplexEntry)) (name : String) (m : ComplexEntry),
      regFind reg name = none → regFind (reg ++ [(name, m)]) name = some m := by
  intro reg
  induction reg with
  | nil => intro name m _; simp [regFind]
  | cons p rest ih =>
    intro name m h
    obtain ⟨k, v⟩ := p
    by_cases hk : k = name
    · rw [show regFind ((k, v) :: rest) name = some v from by simp [regFind, hk]] at h
      cases h
    · rw [List.cons_append]
      simp only [regFind, if_neg hk]
      apply ih
      simpa [regFind, hk] using h

/-! ## Bucket generator lemmas -/

theorem bucketsLoop_eq (factor : ℚ) : ∀ (n : Nat) (start : ℚ),
    bucketsLoop start factor n = (List.range n).map fun i => start * factor ^ i := by
  intro n
  induction n with
  | zero => intro start; simp [bucketsLoop]
  | succ n ih =>
    intro start
    rw [bucketsLoop, ih (start * factor), List.range_succ_eq_map]
    rw [List.map_cons, List.map_map]
    congr 1
    · rw [pow_zero, mul_one]
    · apply List.map_congr_left
      intro i _
      show start * factor * factor ^ i = start * factor ^ (i + 1)
      rw [pow_succ]
      ring

/-! ## Claims -/

/-- C1 counterexample: with bounds `[1, +Inf]` and counts `[1, 2, 3]`
(so `len(counts) = len(bounds) + 1`), the emitted `+Inf` bucket line has
value 3, while the sum of all counts including the overflow entry is 6 and
the `_count` line carries 6: the claim's "in every case the emitted +Inf
bucket's value equals that grand total, which is also the value of the
name_count line" is false on this snapshot. -/
theorem C1_counterexample :
    histogramLines
        ⟨0, "h", MetricType.histogram, "", F.fin 4, [], [F.fin 1, F.inf], [1, 2, 3]⟩ [] =
      ["h_bucket\x7ble=\"1\"\x7d 1\n", "h_bucket\x7ble=\"+Inf\"\x7d 3\n",
        "h_sum 4\n", "h_count 6\n"]
    ∧ ([1, 2, 3] : List Nat).sum = 6 ∧ (3 : Nat) ≠ 6 :=
  ⟨by decide, by decide, by decide⟩

/-- C1 (amended): for every histogram snapshot with
`len(counts) = len(bounds) + 1`, the encoder emits one `name_bucket` line
per bound whose value is the running cumulative sum of the counts up to
that bound; if no bound is `+Inf`, it appends one synthetic
`le="+Inf"` bucket line whose value is the sum of all counts including the
overflow entry, and that grand total is also the value of the `name_count`
line; if some bound is `+Inf`, no synthetic line is appended, and the
emitted `+Inf` bucket line is the last bucket line and carries the grand
total (which is also the `name_count` value) provided additionally that
the `+Inf` bound is the last bound and the overflow entry is `0`. -/
theorem C1_histogram_buckets (m : MetricSnapshot)
    (h : m.counts.length = m.bounds.length + 1) :
    (histLoop m.name m.labels m.bounds m.counts 0).1 =
      List.zipWith (fun b (c : Nat) => writeEntry m.name (F.fin (c : ℚ)) "_bucket" m.labels "le" b)
        m.bounds (cumulative 0 m.counts)
    ∧ (m.bounds.any isInf = false →
        histogramLines m m.labels =
          (histLoop m.name m.labels m.bounds m.counts 0).1
            ++ [writeEntry m.name (F.fin (m.counts.sum : ℚ)) "_bucket" m.labels "le" F.inf,
                writeEntry m.name m.value "_sum" m.labels "" (F.fin 0),
                writeEntry m.name (F.fin (m.counts.sum : ℚ)) "_count" m.labels "" (F.fin 0)])
    ∧ (m.bounds.getLast? = some F.inf → m.counts.getLast? = some 0 →
        (histLoop m.name m.labels m.bounds m.counts 0).1.getLast? =
          some (writeEntry m.name (F.fin (m.counts.sum : ℚ)) "_bucket" m.labels "le" F.inf)
        ∧ histogramLines m m.labels =
            (histLoop m.name m.labels m.bounds m.counts 0).1
              ++ [writeEntry m.name m.value "_sum" m.labels "" (F.fin 0),
                  writeEntry m.name (F.fin (m.counts.sum : ℚ)) "_count" m.labels "" (F.fin 0)]) := by
  have hlen : m.bounds.length ≤ m.counts.length := by omega
  have he := histLoop_eq m.name m.labels m.bounds m.counts 0 hlen
  have hcount : (histLoop m.name m.labels m.bounds m.counts 0).2.1 +
      m.counts.getD m.bounds.length 0 = m.counts.sum := by
    rw [he]
    simpa using take_sum_getD m.counts m.bounds.length h
  refine ⟨?_, ?_, ?_⟩
  · rw [he]
  · intro hinf
    have hflag : (histLoop m.name m.labels m.bounds m.counts 0).2.2 = false := by
      rw [he]
      exact hinf
    simp only [histogramLines]
    rw [hflag, hcount]
    simp
  · intro hlast hzero
    have hmem : F.inf ∈ m.bounds := by
      rw [List.getLast?_eq_getElem?] at hlast
      exact List.getElem?_mem hlast
    have hflag : (histLoop m.name m.labels m.bounds m.counts 0).2.2 = true := by
      rw [he]
      exact List.any_eq_true.mpr ⟨F.inf, hmem, rfl⟩
    have hgd : m.counts.getD m.bounds.length 0 = 0 := by
      rw [getD_last m.counts m.bounds.length h, hzero]
      rfl
    have htake : (m.counts.take m.bounds.length).sum = m.counts.sum := by
      have := take_sum_getD m.counts m.bounds.length h
      omega
    constructor
    · rw [histLoop_getLast m.name m.labels m.bounds m.counts 0 hlen, hlast]
      simp [htake]
    · simp only [histogramLines]
      rw [hflag, hcount]
      simp

/-- C1 witness: the amended theorem applied to the concrete histogram
snapshot `c1snap` (bounds `[1, 2]`, counts `[1, 2, 3]`). -/
theorem C1_histogram_buckets_witness :
    c1snap.counts.length = c1snap.bounds.length + 1
    ∧ ((histLoop c1snap.name c1snap.labels c1snap.bounds c1snap.counts 0).1 =
        List.zipWith
          (fun b (c : Nat) => writeEntry c1snap.name (F.fin (c : ℚ)) "_bucket" c1snap.labels "le" b)
          c1snap.bounds (cumulative 0 c1snap.counts)
      ∧ (c1snap.bounds.any isInf = false →
          histogramLines c1snap c1snap.labels =
            (histLoop c1snap.name c1snap.labels c1snap.bounds c1snap.counts 0).1
              ++ [writeEntry c1snap.name (F.fin (c1snap.counts.sum : ℚ)) "_bucket"
                    c1snap.labels "le" F.inf,
                  writeEntry c1snap.name c1snap.value "_sum" c1snap.labels "" (F.fin 0),
                  writeEntry c1snap.name (F.fin (c1snap.counts.sum : ℚ)) "_count"
                    c1snap.labels "" (F.fin 0)])
      ∧ (c1snap.bounds.getLast? = some F.inf → c1snap.counts.getLast? = some 0 →
          (histLoop c1snap.name c1snap.labels c1snap.bounds c1snap.counts 0).1.getLast? =
            some (writeEntry c1snap.name (F.fin (c1snap.counts.sum : ℚ)) "_bucket"
              c1snap.labels "le" F.inf)
          ∧ histogramLines c1snap c1snap.labels =
              (histLoop c1snap.name c1snap.labels c1snap.bounds c1snap.counts 0).1
                ++ [writeEntry c1snap.name c1snap.value "_sum" c1snap.labels "" (F.fin 0),
                    writeEntry c1snap.name (F.fin (c1snap.counts.sum : ℚ)) "_count"
                      c1snap.labels "" (F.fin 0)])) :=
  ⟨by decide, C1_histogram_buckets c1snap (by decide)⟩

/-- C2 counterexample: two snapshots sharing `name = "a"` and `id = 1` but
with different values; supplying them in the two possible orders yields
different output texts, so output is not invariant under every
permutation of every snapshot list. -/
theorem C2_counterexample :
    translateMetricsToPrometheusTextFormat
        [⟨1, "a", MetricType.counter, "", F.fin 1, [], [], []⟩,
         ⟨1, "a", MetricType.counter, "", F.fin 2, [], [], []⟩] ≠
      translateMetricsToPrometheusTextFormat
        [⟨1, "a", MetricType.counter, "", F.fin 2, [], [], []⟩,
         ⟨1, "a", MetricType.counter, "", F.fin 1, [], [], []⟩] := by decide

/-- C2 (amended): when the `(name, id)` keys of the snapshot list are
pairwise distinct, every permutation of the list produces the identical
output text, the processing order being sorted by name ascending with
ties broken by id ascending; and the claim's concrete example holds: two
`requests` snapshots with ids 2 and 1 supplied in that order are emitted
with the id-1 series line before the id-2 series line.  (Without the
distinctness assumption the sort is merely stable, so a permutation can
change the output — see the counterexample.) -/
theorem C2_permutation_invariance (ms ms' : List MetricSnapshot)
    (hperm : ms.Perm ms') (hkeys : (ms.map snapKey).Nodup) :
    translateMetricsToPrometheusTextFormat ms = translateMetricsToPrometheusTextFormat ms'
    ∧ List.Sorted snapLe (sortSnapshots ms)
    ∧ translateMetricsToPrometheusTextFormat
        [⟨2, "requests", MetricType.counter, "", F.fin 2, [("x", "b")], [], []⟩,
         ⟨1, "requests", MetricType.counter, "", F.fin 1, [("x", "a")], [], []⟩] =
      "# TYPE requests counter\nrequests\x7bx=\"a\"\x7d 1\nrequests\x7bx=\"b\"\x7d 2\n\n" := by
  refine ⟨?_, sortSnapshots_sorted ms, by decide⟩
  show (translateFull ms).1 = (translateFull ms').1
  unfold translateFull
  rw [sortSnapshots_eq_of_perm hperm hkeys]

/-- C2 witness: the amended theorem applied to a concrete two-element list
and its swap. -/
theorem C2_permutation_invariance_witness :
    ([⟨1, "a", MetricType.counter, "", F.fin 1, [], [], []⟩,
      ⟨2, "b", MetricType.counter, "", F.fin 2, [], [], []⟩] : List MetricSnapshot).Perm
        [⟨2, "b", MetricType.counter, "", F.fin 2, [], [], []⟩,
         ⟨1, "a", MetricType.counter, "", F.fin 1, [], [], []⟩]
    ∧ (([⟨1, "a", MetricType.counter, "", F.fin 1, [], [], []⟩,
         ⟨2, "b", MetricType.counter, "", F.fin 2, [], [], []⟩] : List MetricSnapshot).map
          snapKey).Nodup
    ∧ (translateMetricsToPrometheusTextFormat
          [⟨1, "a", MetricType.counter, "", F.fin 1, [], [], []⟩,
           ⟨2, "b", MetricType.counter, "", F.fin 2, [], [], []⟩] =
        translateMetricsToPrometheusTextFormat
          [⟨2, "b", MetricType.counter, "", F.fin 2, [], [], []⟩,
           ⟨1, "a", MetricType.counter, "", F.fin 1, [], [], []⟩]
      ∧ List.Sorted snapLe (sortSnapshots
          [⟨1, "a", MetricType.counter, "", F.fin 1, [], [], []⟩,
           ⟨2, "b", MetricType.counter, "", F.fin 2, [], [], []⟩])
      ∧ translateMetricsToPrometheusTextFormat
          [⟨2, "requests", MetricType.counter, "", F.fin 2, [("x", "b")], [], []⟩,
           ⟨1, "requests", MetricType.counter, "", F.fin 1, [("x", "a")], [], []⟩] =
        "# TYPE requests counter\nrequests\x7bx=\"a\"\x7d 1\nrequests\x7bx=\"b\"\x7d 2\n\n") :=
  ⟨List.Perm.swap _ _ _, by decide,
    C2_permutation_invariance _ _ (List.Perm.swap _ _ _) (by decide)⟩

/-- C3 counterexample: on the input `[b, a]` the call does not leave the
caller's slice unchanged — after the call it holds `[a, b]`. -/
theorem C3_counterexample :
    (translateFull
        [⟨0, "b", MetricType.counter, "", F.fin 1, [], [], []⟩,
         ⟨0, "a", MetricType.counter, "", F.fin 1, [], [], []⟩]).2 ≠
      [⟨0, "b", MetricType.counter, "", F.fin 1, [], [], []⟩,
       ⟨0, "a", MetricType.counter, "", F.fin 1, [], [], []⟩] := by decide

/-- C3 (amended): the translator is deterministic and a function of the
input snapshot list alone — both the text and the final slice contents are
computed from the input list — but it does not leave the input slice's
order unchanged: `sort.SliceStable` reorders it in place, leaving exactly
the stable (name, id) sort of the input, a permutation of the original
elements. -/
theorem C3_translate_pure (ms : List MetricSnapshot) :
    (translateFull ms).1 = translateMetricsToPrometheusTextFormat ms
    ∧ (translateFull ms).2 = sortSnapshots ms
    ∧ (translateFull ms).2.Perm ms
    ∧ List.Sorted snapLe (translateFull ms).2 :=
  ⟨rfl, rfl, sortSnapshots_perm ms, sortSnapshots_sorted ms⟩

/-- C4: `complexMap.Add` updates the counter series at `(name, item)` by
the delta exactly when `c > 0`, the gauge series exactly when `g ≠ 0`, and
records a histogram observation exactly when `h ≥ 0`, the observation
being the duration in fractional seconds — so a zero duration is recorded
as the observation `0`. -/
theorem C4_conditional_updates (st : ComplexState) (name item : String) (c g : ℚ) (h : Int) :
    (0 < c → getSeries (complexMapAdd st name item c g h).counter 0 ⟨name, item⟩ =
        getSeries st.counter 0 ⟨name, item⟩ + c)
    ∧ (¬ 0 < c → (complexMapAdd st name item c g h).counter = st.counter)
    ∧ (g ≠ 0 → getSeries (complexMapAdd st name item c g h).gauge 0 ⟨name, item⟩ =
        getSeries st.gauge 0 ⟨name, item⟩ + g)
    ∧ (g = 0 → (complexMapAdd st name item c g h).gauge = st.gauge)
    ∧ (0 ≤ h → getSeries (complexMapAdd st name item c g h).histogram [] ⟨name, item⟩ =
        getSeries st.histogram [] ⟨name, item⟩ ++ [durationSeconds h])
    ∧ (h < 0 → (complexMapAdd st name item c g h).histogram = st.histogram)
    ∧ durationSeconds 0 = 0 := by
  refine ⟨?_, ?_, ?_, ?_, ?_, ?_, by simp [durationSeconds]⟩
  · intro hc
    by_cases hg : g ≠ 0 <;> by_cases hh : 0 ≤ h <;>
      simp [complexMapAdd, hc, hg, hh, getSeries_setSeries]
  · intro hc
    by_cases hg : g ≠ 0 <;> by_cases hh : 0 ≤ h <;>
      simp [complexMapAdd, hc, hg, hh]
  · intro hg
    by_cases hc : 0 < c <;> by_cases hh : 0 ≤ h <;>
      simp [complexMapAdd, hc, hg, hh, getSeries_setSeries]
  · intro hg
    by_cases hc : 0 < c <;> by_cases hh : 0 ≤ h <;>
      simp [complexMapAdd, hc, hg, hh]
  · intro hh
    by_cases hc : 0 < c <;> by_cases hg : g ≠ 0 <;>
      simp [complexMapAdd, hc, hg, hh, getSeries_setSeries]
  · intro hh
    have hh2 : ¬ 0 ≤ h := not_le.mpr hh
    by_cases hc : 0 < c <;> by_cases hg : g ≠ 0 <;>
      simp [complexMapAdd, hc, hg, hh2]

/-- C4 witness: one call with `c = 1 > 0`, `g = 2 ≠ 0` and a zero
duration on the empty state. -/
theorem C4_conditional_updates_witness :
    (0 : ℚ) < 1
    ∧ getSeries (complexMapAdd ⟨[], [], []⟩ "n" "i" 1 2 0).counter 0 ⟨"n", "i"⟩ =
        getSeries (⟨[], [], []⟩ : ComplexState).counter 0 ⟨"n", "i"⟩ + 1
    ∧ (0 : Int) ≤ 0
    ∧ getSeries (complexMapAdd ⟨[], [], []⟩ "n" "i" 1 2 0).histogram [] ⟨"n", "i"⟩ =
        getSeries (⟨[], [], []⟩ : ComplexState).histogram [] ⟨"n", "i"⟩ ++ [durationSeconds 0] :=
  ⟨by norm_num,
    (C4_conditional_updates ⟨[], [], []⟩ "n" "i" 1 2 0).1 (by norm_num),
    by decide,
    (C4_conditional_updates ⟨[], [], []⟩ "n" "i" 1 2 0).2.2.2.2.1 (by decide)⟩

/-- C5: `NewBuckets` fails exactly when `count < 1` or `start ≤ 0` or
`factor ≤ 1`, and otherwise returns the `count`-element geometric
sequence `start, start·factor, start·factor², …`; in particular
`NewBuckets 1 2 5 = [1, 2, 4, 8, 16]`, while `(1,2,0)`, `(0,2,3)` and
`(1,1,3)` all raise the configuration error. -/
theorem C5_NewBuckets (start factor : ℚ) (count : Int) :
    ((∃ e, NewBuckets start factor count = Except.error e) ↔
        (count < 1 ∨ start ≤ 0 ∨ factor ≤ 1))
    ∧ (1 ≤ count → 0 < start → 1 < factor →
        NewBuckets start factor count =
          Except.ok ((List.range count.toNat).map fun i => start * factor ^ i)
        ∧ ((List.range count.toNat).map fun i => start * factor ^ i).length = count.toNat)
    ∧ NewBuckets 1 2 5 = Except.ok [1, 2, 4, 8, 16]
    ∧ (∃ e, NewBuckets 1 2 0 = Except.error e)
    ∧ (∃ e, NewBuckets 0 2 3 = Except.error e)
    ∧ (∃ e, NewBuckets 1 1 3 = Except.error e) := by
  refine ⟨⟨?_, ?_⟩, ?_, ?_, ⟨_, rfl⟩, ⟨_, rfl⟩, ⟨_, rfl⟩⟩
  · rintro ⟨e, he⟩
    unfold NewBuckets at he
    split_ifs at he with h1 h2 h3
    · exact Or.inl h1
    · exact Or.inr (Or.inl h2)
    · exact Or.inr (Or.inr h3)
  · intro hd
    unfold NewBuckets
    split_ifs with h1 h2 h3
    · exact ⟨_, rfl⟩
    · exact ⟨_, rfl⟩
    · exact ⟨_, rfl⟩
    · rcases hd with hx | hx | hx
      · exact absurd hx h1
      · exact absurd hx h2
      · exact absurd hx h3
  · intro h1 h2 h3
    constructor
    · unfold NewBuckets
      rw [if_neg (by omega), if_neg (not_le.mpr h2), if_neg (not_le.mpr h3)]
      rw [bucketsLoop_eq]
    · simp
  · unfold NewBuckets
    rw [if_neg (by norm_num), if_neg (by norm_num), if_neg (by norm_num)]
    norm_num [bucketsLoop]

/-- C5 witness: the success branch applied at `(1, 2, 5)`. -/
theorem C5_NewBuckets_witness :
    (1 : Int) ≤ 5 ∧ (0 : ℚ) < 1 ∧ (1 : ℚ) < 2
    ∧ (NewBuckets 1 2 5 =
          Except.ok ((List.range (5 : Int).toNat).map fun i => (1 : ℚ) * 2 ^ i)
        ∧ ((List.range (5 : Int).toNat).map fun i => (1 : ℚ) * 2 ^ i).length =
            (5 : Int).toNat) :=
  ⟨by norm_num, by norm_num, by norm_num,
    (C5_NewBuckets 1 2 5).2.1 (by norm_num) (by norm_num) (by norm_num)⟩

/-- A found name returns the stored bundle and leaves the registry
unchanged. -/
theorem RegisterComplexMap_found {reg : List (String × ComplexEntry)} {name : String}
    {m : ComplexEntry} (h : regFind reg name = some m) (help : String) (buckets : List ℚ) :
    RegisterComplexMap reg name help buckets = (m, reg) := by
  unfold RegisterComplexMap
  rw [h]

/-- C6: `RegisterComplexMap` is idempotent per name.  The first call for
an unregistered name creates the bundle with the three derived sub-names
(`_counter`, `_gauge`, `_histogram`, with the buckets going to the
histogram map) and appends it to the registry; a call for a registered
name returns the stored bundle and leaves the registry unchanged; hence a
second registration of the same name (with any help/buckets) returns the
first call's bundle and registry unchanged.  The whole lookup-and-insert
is the body of one `mu.Lock()`/`mu.Unlock()` critical section and is
modelled as a single atomic transition of the registry state. -/
theorem C6_register_idempotent (reg : List (String × ComplexEntry)) (name help : String)
    (buckets : List ℚ) :
    (regFind reg name = none →
        (RegisterComplexMap reg name help buckets).1.counter.name = name ++ "_counter"
        ∧ (RegisterComplexMap reg name help buckets).1.gauge.name = name ++ "_gauge"
        ∧ (RegisterComplexMap reg name help buckets).1.histogram.name = name ++ "_histogram"
        ∧ (RegisterComplexMap reg name help buckets).1.counter.type = MetricType.counter
        ∧ (RegisterComplexMap reg name help buckets).1.gauge.type = MetricType.gauge
        ∧ (RegisterComplexMap reg name help buckets).1.histogram.type = MetricType.histogram
        ∧ (RegisterComplexMap reg name help buckets).1.histogram.buckets = buckets
        ∧ (RegisterComplexMap reg name help buckets).2 =
            reg ++ [(name, (RegisterComplexMap reg name help buckets).1)])
    ∧ (∀ m, regFind reg name = some m →
        RegisterComplexMap reg name help buckets = (m, reg))
    ∧ (∀ help2 buckets2,
        RegisterComplexMap (RegisterComplexMap reg name help buckets).2 name help2 buckets2 =
          ((RegisterComplexMap reg name help buckets).1,
            (RegisterComplexMap reg name help buckets).2)) := by
  refine ⟨?_, ?_, ?_⟩
  · intro hnone
    unfold RegisterComplexMap
    rw [hnone]
    exact ⟨rfl, rfl, rfl, rfl, rfl, rfl, rfl, rfl⟩
  · intro m hsome
    exact RegisterComplexMap_found hsome help buckets
  · intro help2 buckets2
    cases hr : regFind reg name with
    | some m =>
      rw [RegisterComplexMap_found hr help buckets]
      exact RegisterComplexMap_found hr help2 buckets2
    | none =>
      have hfull : RegisterComplexMap reg name help buckets =
          (⟨⟨MetricType.counter, name ++ "_counter", help, []⟩,
            ⟨MetricType.gauge, name ++ "_gauge", help, []⟩,
            ⟨MetricType.histogram, name ++ "_histogram", help, buckets⟩⟩,
            reg ++ [(name,
              ⟨⟨MetricType.counter, name ++ "_counter", help, []⟩,
                ⟨MetricType.gauge, name ++ "_gauge", help, []⟩,
                ⟨MetricType.histogram, name ++ "_histogram", help, buckets⟩⟩)]) := by
        unfold RegisterComplexMap
        rw [hr]
      have h2 : regFind (RegisterComplexMap reg name help buckets).2 name =
          some (RegisterComplexMap reg name help buckets).1 := by
        rw [hfull]
        exact regFind_append_self reg name _ hr
      exact RegisterComplexMap_found h2 help2 buckets2

/-- C6 witness: registering `"x"` in the empty registry, then registering
it again with different help text and buckets. -/
theorem C6_register_idempotent_witness :
    regFind [] "x" = none
    ∧ (RegisterComplexMap [] "x" "help" [1]).1.counter.name = "x" ++ "_counter"
    ∧ (RegisterComplexMap [] "x" "help" [1]).1.histogram.buckets = [1]
    ∧ RegisterComplexMap (RegisterComplexMap [] "x" "help" [1]).2 "x" "other" [2] =
        ((RegisterComplexMap [] "x" "help" [1]).1, (RegisterComplexMap [] "x" "help" [1]).2) :=
  ⟨rfl,
    ((C6_register_idempotent [] "x" "help" [1]).1 rfl).1,
    ((C6_register_idempotent [] "x" "help" [1]).1 rfl).2.2.2.2.2.2.1,
    (C6_register_idempotent [] "x" "help" [1]).2.2 "other" [2]⟩

/-- C7: the label block lists the label names in ascending order (the
sorted keys are a sorted permutation of the label keys), is omitted
entirely exactly when there is neither a label nor a synthetic label,
appends the synthetic `le` label after all explicit labels, wraps the
comma-separated fragments in braces, and escapes label values by the
three replacements backslash → `\\`, newline → `\n`, quote → `\"`
(all other characters are copied unchanged). -/
theorem C7_label_emission (labels : List (String × String)) (extra : String) (item : F) :
    List.Sorted strLe (sortLabelKeys labels)
    ∧ (sortLabelKeys labels).Perm (labels.map Prod.fst)
    ∧ (labels.length = 0 ∧ extra = "" → writeLabels labels extra item = "")
    ∧ (¬ (labels.length = 0 ∧ extra = "") →
        writeLabels labels extra item =
          "\x7b" ++ sepJoin ","
              ((sortLabelKeys labels).map (labelFrag labels)
                ++ (if 0 < extra.length then [extra ++ "=\"" ++ formatFloat item ++ "\""] else []))
            ++ "\x7d")
    ∧ (∀ s t : String, escaper (s ++ t) = escaper s ++ escaper t)
    ∧ escaper "\\" = "\\\\" ∧ escaper "\n" = "\\n" ∧ escaper "\"" = "\\\""
    ∧ (∀ ch : Char, ch ≠ '\\' → ch ≠ '\n' → ch ≠ '"' →
        escaper (String.mk [ch]) = String.mk [ch]) := by
  refine ⟨List.sorted_insertionSort strLe _, List.perm_insertionSort strLe _, ?_,
    fun h => writeLabels_eq labels extra item h, ?_, by decide, by decide, by decide, ?_⟩
  · intro hcond
    unfold writeLabels
    rw [if_pos hcond]
  · intro s t
    apply String.ext
    simp [escaper, String.data_append]
  · intro ch h1 h2 h3
    simp [escaper, escapeChar, h1, h2, h3]

/-- C7 witness: two labels (supplied unsorted) plus the synthetic `le`
label, with the fully evaluated output block. -/
theorem C7_label_emission_witness :
    ¬ (([("b", "y"), ("a", "x")] : List (String × String)).length = 0 ∧ "le" = "")
    ∧ writeLabels [("b", "y"), ("a", "x")] "le" (F.fin 1) =
        "\x7b" ++ sepJoin ","
            ((sortLabelKeys [("b", "y"), ("a", "x")]).map (labelFrag [("b", "y"), ("a", "x")])
              ++ (if 0 < ("le" : String).length then
                    ["le" ++ "=\"" ++ formatFloat (F.fin 1) ++ "\""] else []))
          ++ "\x7d"
    ∧ writeLabels [("b", "y"), ("a", "x")] "le" (F.fin 1) = "\x7ba=\"x\",b=\"y\",le=\"1\"\x7d" :=
  ⟨by decide,
    (C7_label_emission [("b", "y"), ("a", "x")] "le" (F.fin 1)).2.2.2.1 (by decide),
    by decide⟩

/-- C8: for a non-empty name group whose (shared) type is counter, gauge
or histogram, the group text is exactly one optional `# HELP name help`
line — present if and only if the help text is non-empty — followed by
exactly one `# TYPE name keyword` line with the keyword in
`{counter, gauge, histogram}`, followed by the series body and the
trailing blank line; the headers come from the group's first snapshot
only, so they are not repeated for later snapshots of the group. -/
theorem C8_group_headers (m : MetricSnapshot) (rest : List MetricSnapshot)
    (htype : m.type = MetricType.counter ∨ m.type = MetricType.gauge ∨
      m.type = MetricType.histogram) :
    translateMetrics (m :: rest) =
      (if 0 < m.help.length then "# HELP " ++ m.name ++ " " ++ m.help ++ "\n" else "")
        ++ "# TYPE " ++ m.name ++ typeTail m.type
        ++ seriesBody (decide (m.type = MetricType.histogram)) (m :: rest) ++ "\n"
    ∧ typeTail m.type = " " ++ typeKeyword m.type ++ "\n"
    ∧ (typeKeyword m.type = "counter" ∨ typeKeyword m.type = "gauge" ∨
        typeKeyword m.type = "histogram") := by
  refine ⟨rfl, ?_, ?_⟩
  · rcases htype with h | h | h <;> rw [h] <;> decide
  · rcases htype with h | h | h <;> rw [h]
    · exact Or.inl rfl
    · exact Or.inr (Or.inl rfl)
    · exact Or.inr (Or.inr rfl)

/-- C8 witness: a singleton counter group with help text. -/
theorem C8_group_headers_witness :
    (c8snap.type = MetricType.counter ∨ c8snap.type = MetricType.gauge ∨
      c8snap.type = MetricType.histogram)
    ∧ (translateMetrics [c8snap] =
        (if 0 < c8snap.help.length then
            "# HELP " ++ c8snap.name ++ " " ++ c8snap.help ++ "\n" else "")
          ++ "# TYPE " ++ c8snap.name ++ typeTail c8snap.type
          ++ seriesBody (decide (c8snap.type = MetricType.histogram)) [c8snap] ++ "\n"
      ∧ typeTail c8snap.type = " " ++ typeKeyword c8snap.type ++ "\n"
      ∧ (typeKeyword c8snap.type = "counter" ∨ typeKeyword c8snap.type = "gauge" ∨
          typeKeyword c8snap.type = "histogram")) :=
  ⟨Or.inl rfl, C8_group_headers c8snap [] (Or.inl rfl)⟩

/-- C9: inside a histogram name group the per-series texts are joined
with one extra `'\n'` — a blank separator line, since every series text
ends in a newline — after every series except the group's last, while
counter/gauge series are concatenated with no separator at all; and every
group's text ends with the final `w.WriteByte('\n')`, one trailing blank
line after the complete group. -/
theorem C9_group_separators (group : List MetricSnapshot) (m : MetricSnapshot)
    (rest : List MetricSnapshot) :
    seriesBody true group = sepJoin "\n" (group.map fun x => histogramEntries x x.labels)
    ∧ seriesBody false group =
        strJoin (group.map fun x => writeEntry x.name x.value "" x.labels "" (F.fin 0))
    ∧ translateMetrics (m :: rest) =
        groupHeader m ++ seriesBody (decide (m.type = MetricType.histogram)) (m :: rest) ++ "\n" :=
  ⟨seriesBody_true_eq group, seriesBody_false_eq group, rfl⟩

/-- C10: for a group whose first snapshot's type is none of counter,
gauge, histogram, the switch writes no type keyword and no newline after
`# TYPE name`, so the first series line is concatenated directly onto the
TYPE line, and the group body is encoded counter/gauge-style; concretely,
a single "invalid"-typed snapshot named `foo` with value 9 produces the
text `# TYPE foofoo 9\n\n`. -/
theorem C10_unknown_type (m : MetricSnapshot) (rest : List MetricSnapshot)
    (h : m.type = MetricType.invalid) :
    translateMetrics (m :: rest) =
      (if 0 < m.help.length then "# HELP " ++ m.name ++ " " ++ m.help ++ "\n" else "")
        ++ ("# TYPE " ++ m.name)
        ++ (writeEntry m.name m.value "" m.labels "" (F.fin 0) ++ seriesBody false rest) ++ "\n"
    ∧ typeTail m.type = ""
    ∧ translateMetrics [⟨7, "foo", MetricType.invalid, "", F.fin 9, [], [], []⟩] =
        "# TYPE foofoo 9\n\n" := by
  refine ⟨?_, by rw [h]; rfl, by decide⟩
  have hd : decide (m.type = MetricType.histogram) = false := by rw [h]; decide
  have e : translateMetrics (m :: rest) =
      groupHeader m ++ seriesBody (decide (m.type = MetricType.histogram)) (m :: rest) ++ "\n" :=
    rfl
  rw [e, hd, seriesBody_false_cons]
  unfold groupHeader
  rw [h]
  simp [typeTail, entryFor, String.append_assoc]

/-- C10 witness: the theorem applied to the singleton `c10snap` group. -/
theorem C10_unknown_type_witness :
    c10snap.type = MetricType.invalid
    ∧ (translateMetrics [c10snap] =
        (if 0 < c10snap.help.length then
            "# HELP " ++ c10snap.name ++ " " ++ c10snap.help ++ "\n" else "")
          ++ ("# TYPE " ++ c10snap.name)
          ++ (writeEntry c10snap.name c10snap.value "" c10snap.labels "" (F.fin 0)
              ++ seriesBody false []) ++ "\n"
      ∧ typeTail c10snap.type = ""
      ∧ translateMetrics [⟨7, "foo", MetricType.invalid, "", F.fin 9, [], [], []⟩] =
          "# TYPE foofoo 9\n\n") :=
  ⟨rfl, C10_unknown_type c10snap [] rfl⟩

end HMetrics
